import Mathlib

/-!
Shallow embedding of `src/benchmark_matmul.py`, a benchmarking script that
measures wall-clock time of two numerical kernels: the matrix product
`X.T @ X` for a random matrix `X`, and the symmetric eigendecomposition
`np.linalg.eigh(C)` for `C = X.T @ X`.

Modelling decisions:
- Real-valued matrix entries are modelled with exact rationals `ℚ`; the
  algebraic facts proved (shape, symmetry) then hold exactly, which implies
  the floating-point-tolerance versions stated in the spec.
- Wall-clock time (`pyperf.perf_counter`) is a `ℚ`-valued clock stored in the
  program state; each kernel invocation advances the clock by an ambient
  per-call cost (a function of the global kernel-call counter), so measured
  durations are sums of per-call costs.
- `np.random.randn` draws from an ambient entropy stream `ω : ℕ → ℚ` at the
  state's current offset, consuming `rows * cols` values row-major, as the
  generator state does in numpy.
- `np.linalg.eigh` is modelled by its documented contract: defined exactly on
  square inputs, returning a length-n eigenvalue array and an n times n
  eigenvector matrix whose numerical values come from abstract oracles (the
  LAPACK computation itself is not modelled; the script discards the values).
- Python runtime failure (attribute access on `None`, a non-square input to
  `eigh`) is an `Except.error`; the script installs no handler, so errors
  propagate through the loop combinator unchanged.
- Python values returned from the timed runners are modelled by a small
  dynamic value universe `Val`, mirroring that the script returns a bare
  float, not a tuple.
- A ghost event trace records setup completion and every kernel invocation,
  in order, so temporal claims about phase ordering are statements about
  the trace.
-/

namespace MatMulMillions

/-- Dense matrix with rational entries, dimensions carried in the value as
numpy arrays carry their shape. -/
structure Mat where
  rows : ℕ
  cols : ℕ
  entry : Fin rows → Fin cols → ℚ

/-- Transpose: `X.T` in the source. -/
def Mat.transpose (m : Mat) : Mat :=
  ⟨m.cols, m.rows, fun i j => m.entry j i⟩

/-- Matrix product: the `@` operator. Defined when inner dimensions agree,
otherwise a runtime error (modelled as `none`). -/
def Mat.matmul (a b : Mat) : Option Mat :=
  if h : a.cols = b.rows then
    some ⟨a.rows, b.cols, fun i j =>
      ∑ k : Fin a.cols, a.entry i k * b.entry (Fin.cast h k) j⟩
  else none

/-- One-dimensional array, used for the eigenvalue array of `eigh`. -/
structure Vec where
  len : ℕ
  entry : Fin len → ℚ

/-- Dynamic Python values as far as the script produces them: `None`, a
float, an array, a one-dimensional array, or a tuple. -/
inductive Val where
  | num (q : ℚ)
  | vec (v : Vec)
  | matV (m : Mat)
  | tup (a b : Val)

/-- Ghost events recording the phases of a run: setup completion and each
timed kernel invocation. -/
inductive Ev where
  | setupEv
  | matmulEv
  | eighEv
deriving DecidableEq

/-- Program state: the module-level globals `X` and `C` (both `None` before
`setup_matrices` runs), the entropy offset of the random generator, the
wall clock read by `perf_counter`, the number of kernel invocations so far
(used to index per-call costs), and the ghost event trace. -/
@[ext]
structure PyState where
  X : Option Mat
  C : Option Mat
  rng : ℕ
  clock : ℚ
  kernelCalls : ℕ
  events : List Ev

/-- State at module load: `X = None`, `C = None` (source lines 17 and 18). -/
def initState : PyState :=
  { X := none, C := none, rng := 0, clock := 0, kernelCalls := 0, events := [] }

/-- Model of `pyperf.perf_counter()`: read the wall clock. -/
def perf_counter (s : PyState) : ℚ := s.clock

/-- Model of `np.random.randn(r, c)`: an r times c matrix of fresh draws
from the entropy stream `ω` starting at offset `g`, consumed row-major, and
the advanced offset. -/
def randn (ω : ℕ → ℚ) (g : ℕ) (r c : ℕ) : Mat × ℕ :=
  (⟨r, c, fun i j => ω (g + i.val * c + j.val)⟩, g + r * c)

/-- Body of `setup_matrices` with the row and column counts as parameters
(the source hardcodes 100000 and 1000; the spec's scaled-down scenario
instantiates 100 and 10): draw `X = np.random.randn(n_rows, n_cols)`, then
set `C = X.T @ X`. -/
def setup_matrices_with (nrows ncols : ℕ) (ω : ℕ → ℚ) (s : PyState) : PyState :=
  let p := randn ω s.rng nrows ncols
  { s with
    X := some p.1
    C := p.1.transpose.matmul p.1
    rng := p.2
    events := s.events ++ [Ev.setupEv] }

/-- Model of `setup_matrices`: the source's fixed dimensions
`n_rows = 100000`, `n_cols = 1000`. -/
def setup_matrices (ω : ℕ → ℚ) (s : PyState) : PyState :=
  setup_matrices_with 100000 1000 ω s

/-- One iteration of the loop body of `benchmark_matmul`: evaluate
`X.T @ X` and discard the result. Fails when the global `X` is still `None`
(attribute access on `None`) or the product is not defined; on success the
clock advances by the ambient cost `τ` of this kernel call. -/
def matmulKernel (τ : ℕ → ℚ) (s : PyState) : Except Unit PyState :=
  match s.X with
  | none => .error ()
  | some x =>
    match x.transpose.matmul x with
    | none => .error ()
    | some _ =>
      .ok { s with
        clock := s.clock + τ s.kernelCalls
        kernelCalls := s.kernelCalls + 1
        events := s.events ++ [Ev.matmulEv] }

/-- Model of `np.linalg.eigh`: defined exactly on square inputs; returns the
pair of a length-n eigenvalue array and an n times n eigenvector matrix,
with the numerical values supplied by the oracles `ev` and `evec` (the
LAPACK computation is not modelled; the script discards the values, so only
the documented shape contract matters). -/
def eigh (ev : Mat → ℕ → ℚ) (evec : Mat → ℕ → ℕ → ℚ) (c : Mat) :
    Option (Vec × Mat) :=
  if c.rows = c.cols then
    some (⟨c.rows, fun i => ev c i.val⟩,
          ⟨c.rows, c.rows, fun i j => evec c i.val j.val⟩)
  else none

/-- One iteration of the loop body of `benchmark_eigendecomposition`:
evaluate `np.linalg.eigh(C)` and discard the result. Fails when the global
`C` is still `None` or is not square; on success the clock advances by the
ambient cost `τ` of this kernel call. -/
def eighKernel (ev : Mat → ℕ → ℚ) (evec : Mat → ℕ → ℕ → ℚ) (τ : ℕ → ℚ)
    (s : PyState) : Except Unit PyState :=
  match s.C with
  | none => .error ()
  | some c =>
    match eigh ev evec c with
    | none => .error ()
    | some _ =>
      .ok { s with
        clock := s.clock + τ s.kernelCalls
        kernelCalls := s.kernelCalls + 1
        events := s.events ++ [Ev.eighEv] }

/-- Run a loop body `n` times (the `for _ in range(loops)` loop), stopping
at the first error, which propagates unchanged: the script installs no
handler. -/
def iterateE (f : PyState → Except Unit PyState) : ℕ → PyState → Except Unit PyState
  | 0, s => .ok s
  | n + 1, s => (f s).bind (iterateE f n)

/-- Model of `benchmark_matmul(loops)`: read `t0 = perf_counter()`, run the
kernel `loops` times, and return `perf_counter() - t0` (a bare float). -/
def benchmark_matmul (τ : ℕ → ℚ) (loops : ℕ) (s : PyState) :
    Except Unit (Val × PyState) :=
  let t0 := perf_counter s
  (iterateE (matmulKernel τ) loops s).map
    (fun s1 => (Val.num (perf_counter s1 - t0), s1))

/-- Model of `benchmark_eigendecomposition(loops)`: read
`t0 = perf_counter()`, run the kernel `loops` times, and return
`perf_counter() - t0` (a bare float). -/
def benchmark_eigendecomposition (ev : Mat → ℕ → ℚ) (evec : Mat → ℕ → ℕ → ℚ)
    (τ : ℕ → ℚ) (loops : ℕ) (s : PyState) : Except Unit (Val × PyState) :=
  let t0 := perf_counter s
  (iterateE (eighKernel ev evec τ) loops s).map
    (fun s1 => (Val.num (perf_counter s1 - t0), s1))

/-- Model of `pyperf.Runner.bench_time_func`: the external harness invokes
the registered time function with a harness-chosen loop count; calibration
and statistics are the harness's responsibility and are outside the script,
so the loop count is a parameter here. -/
def bench_time_func (f : ℕ → PyState → Except Unit (Val × PyState))
    (loops : ℕ) (s : PyState) : Except Unit PyState :=
  (f loops s).map Prod.snd

/-- Model of `main`: run `setup_matrices` once, then register and run
benchmark 1 (`matmul`), then benchmark 2 (`eigendecomposition`); printing
of banners is not modelled. `loopsA` and `loopsB` are the loop counts the
harness chooses for the two registered time functions. -/
def main (ω : ℕ → ℚ) (ev : Mat → ℕ → ℚ) (evec : Mat → ℕ → ℕ → ℚ)
    (τm τe : ℕ → ℚ) (loopsA loopsB : ℕ) (s : PyState) :
    Except Unit PyState :=
  let s1 := setup_matrices ω s
  (bench_time_func (benchmark_matmul τm) loopsA s1).bind
    (bench_time_func (benchmark_eigendecomposition ev evec τe) loopsB)

/-- Entry access by plain numeric index, defaulting to 0 out of range; used
to compare matrices of possibly different dimensions. -/
def Mat.entryAt (m : Mat) (i j : ℕ) : ℚ :=
  if h : i < m.rows ∧ j < m.cols then m.entry ⟨i, h.1⟩ ⟨j, h.2⟩ else 0

/-- The matrix drawn by `randn` with dimensions R times K from entropy
stream `ω` at offset `g`. -/
def xMat (R K : ℕ) (ω : ℕ → ℚ) (g : ℕ) : Mat :=
  ⟨R, K, fun i j => ω (g + i.val * K + j.val)⟩

/-- A 1 times 1 zero matrix, used as concrete data in witnesses. -/
def oneMat : Mat := ⟨1, 1, fun i j => 0⟩

/-- A concrete post-setup-shaped state with 1 times 1 matrices, used as
concrete data in witnesses. -/
def smallState : PyState :=
  { X := some oneMat, C := some oneMat, rng := 0, clock := 0,
    kernelCalls := 0, events := [] }

/-- The state after the spec's scaled-down setup (rows = 100, cols = 10)
from module load, over the all-zero entropy stream. -/
def scaledState : PyState := setup_matrices_with 100 10 (fun _ => 0) initState

/-- The state `smallState` after one matmul kernel call of unit cost. -/
def mmAfter : PyState :=
  { X := some oneMat, C := some oneMat, rng := 0, clock := 0 + 1,
    kernelCalls := 1, events := [Ev.matmulEv] }

/-- The state `smallState` after one eigendecomposition kernel call of unit
cost. -/
def egAfter : PyState :=
  { X := some oneMat, C := some oneMat, rng := 0, clock := 0 + 1,
    kernelCalls := 1, events := [Ev.eighEv] }

/-! Basic lemmas about the kernels and the loop combinator. -/

/-- The Gram product `X.T @ X` is always defined: inner dimensions agree by
construction, and the result is the square matrix of column inner products. -/
theorem gram_some (x : Mat) :
    x.transpose.matmul x =
      some ⟨x.cols, x.cols, fun i j => ∑ k : Fin x.rows, x.entry k i * x.entry k j⟩ := by
  unfold Mat.matmul Mat.transpose
  rw [dif_pos rfl]
  rfl

/-- Stepping `matmulKernel` from a state whose `X` global is set succeeds and
advances clock, call counter and trace. -/
theorem matmulKernel_ok (τ : ℕ → ℚ) (x : Mat) (s : PyState) (h : s.X = some x) :
    matmulKernel τ s =
      .ok { s with
        clock := s.clock + τ s.kernelCalls
        kernelCalls := s.kernelCalls + 1
        events := s.events ++ [Ev.matmulEv] } := by
  unfold matmulKernel
  rw [h]
  simp only [gram_some]

/-- On a square input, `eigh` succeeds and returns a full-length eigenvalue
array and a square eigenvector matrix. -/
theorem eigh_some (ev : Mat → ℕ → ℚ) (evec : Mat → ℕ → ℕ → ℚ) (c : Mat)
    (h : c.rows = c.cols) :
    eigh ev evec c =
      some (⟨c.rows, fun i => ev c i.val⟩,
            ⟨c.rows, c.rows, fun i j => evec c i.val j.val⟩) := by
  unfold eigh
  rw [if_pos h]

/-- Stepping `eighKernel` from a state whose `C` global is a square matrix
succeeds and advances clock, call counter and trace. -/
theorem eighKernel_ok (ev : Mat → ℕ → ℚ) (evec : Mat → ℕ → ℕ → ℚ) (τ : ℕ → ℚ)
    (c : Mat) (s : PyState) (h : s.C = some c) (hsq : c.rows = c.cols) :
    eighKernel ev evec τ s =
      .ok { s with
        clock := s.clock + τ s.kernelCalls
        kernelCalls := s.kernelCalls + 1
        events := s.events ++ [Ev.eighEv] } := by
  unfold eighKernel
  rw [h]
  simp only [eigh_some ev evec c hsq]

/-- Characterization of the timing loop for the matmul kernel: with `X` set,
`n` iterations succeed, the clock advances by the sum of the `n` per-call
costs, the call counter by `n`, and the trace gains `n` kernel events. -/
theorem iterate_matmul (τ : ℕ → ℚ) (x : Mat) :
    ∀ (n : ℕ) (s : PyState), s.X = some x →
      iterateE (matmulKernel τ) n s =
        .ok { s with
          clock := s.clock + ∑ i ∈ Finset.range n, τ (s.kernelCalls + i)
          kernelCalls := s.kernelCalls + n
          events := s.events ++ List.replicate n Ev.matmulEv } := by
  intro n
  induction n with
  | zero =>
    intro s h
    simp [iterateE]
  | succ n ih =>
    intro s h
    rw [iterateE, matmulKernel_ok τ x s h, Except.bind, ih _ (by simp [h])]
    apply congrArg
    ext : 1
    · rfl
    · rfl
    · rfl
    · show s.clock + τ s.kernelCalls + ∑ i ∈ Finset.range n, τ (s.kernelCalls + 1 + i) =
        s.clock + ∑ i ∈ Finset.range (n + 1), τ (s.kernelCalls + i)
      rw [Finset.sum_range_succ']
      have hshift : ∀ i : ℕ, s.kernelCalls + 1 + i = s.kernelCalls + (i + 1) :=
        fun i => by omega
      simp only [hshift, Nat.add_zero]
      ring
    · show s.kernelCalls + 1 + n = s.kernelCalls + (n + 1)
      omega
    · show s.events ++ [Ev.matmulEv] ++ List.replicate n Ev.matmulEv =
        s.events ++ List.replicate (n + 1) Ev.matmulEv
      rw [List.append_assoc]
      rfl

/-- Characterization of the timing loop for the eigendecomposition kernel:
with `C` a square matrix, `n` iterations succeed, the clock advances by the
sum of the `n` per-call costs, the call counter by `n`, and the trace gains
`n` kernel events. -/
theorem iterate_eigh (ev : Mat → ℕ → ℚ) (evec : Mat → ℕ → ℕ → ℚ) (τ : ℕ → ℚ)
    (c : Mat) (hsq : c.rows = c.cols) :
    ∀ (n : ℕ) (s : PyState), s.C = some c →
      iterateE (eighKernel ev evec τ) n s =
        .ok { s with
          clock := s.clock + ∑ i ∈ Finset.range n, τ (s.kernelCalls + i)
          kernelCalls := s.kernelCalls + n
          events := s.events ++ List.replicate n Ev.eighEv } := by
  intro n
  induction n with
  | zero =>
    intro s h
    simp [iterateE]
  | succ n ih =>
    intro s h
    rw [iterateE, eighKernel_ok ev evec τ c s h hsq, Except.bind, ih _ (by simp [h])]
    apply congrArg
    ext : 1
    · rfl
    · rfl
    · rfl
    · show s.clock + τ s.kernelCalls + ∑ i ∈ Finset.range n, τ (s.kernelCalls + 1 + i) =
        s.clock + ∑ i ∈ Finset.range (n + 1), τ (s.kernelCalls + i)
      rw [Finset.sum_range_succ']
      have hshift : ∀ i : ℕ, s.kernelCalls + 1 + i = s.kernelCalls + (i + 1) :=
        fun i => by omega
      simp only [hshift, Nat.add_zero]
      ring
    · show s.kernelCalls + 1 + n = s.kernelCalls + (n + 1)
      omega
    · show s.events ++ [Ev.eighEv] ++ List.replicate n Ev.eighEv =
        s.events ++ List.replicate (n + 1) Ev.eighEv
      rw [List.append_assoc]
      rfl

/-- Full characterization of `benchmark_matmul` on a state whose `X` is set:
it returns the elapsed clock time, which is exactly the sum of the per-call
costs of its `loops` kernel invocations, and the final state. -/
theorem benchmark_matmul_ok (τ : ℕ → ℚ) (loops : ℕ) (x : Mat) (s : PyState)
    (h : s.X = some x) :
    benchmark_matmul τ loops s =
      .ok (Val.num (∑ i ∈ Finset.range loops, τ (s.kernelCalls + i)),
        { s with
          clock := s.clock + ∑ i ∈ Finset.range loops, τ (s.kernelCalls + i)
          kernelCalls := s.kernelCalls + loops
          events := s.events ++ List.replicate loops Ev.matmulEv }) := by
  unfold benchmark_matmul
  rw [iterate_matmul τ x loops s h]
  unfold perf_counter
  simp only [Except.map]
  rw [add_sub_cancel_left]

/-- Full characterization of `benchmark_eigendecomposition` on a state whose
`C` is a square matrix: it returns the elapsed clock time, which is exactly
the sum of the per-call costs of its `loops` kernel invocations, and the
final state. -/
theorem benchmark_eigendecomposition_ok (ev : Mat → ℕ → ℚ)
    (evec : Mat → ℕ → ℕ → ℚ) (τ : ℕ → ℚ) (loops : ℕ) (c : Mat) (s : PyState)
    (h : s.C = some c) (hsq : c.rows = c.cols) :
    benchmark_eigendecomposition ev evec τ loops s =
      .ok (Val.num (∑ i ∈ Finset.range loops, τ (s.kernelCalls + i)),
        { s with
          clock := s.clock + ∑ i ∈ Finset.range loops, τ (s.kernelCalls + i)
          kernelCalls := s.kernelCalls + loops
          events := s.events ++ List.replicate loops Ev.eighEv }) := by
  unfold benchmark_eigendecomposition
  rw [iterate_eigh ev evec τ c hsq loops s h]
  unfold perf_counter
  simp only [Except.map]
  rw [add_sub_cancel_left]

/-! Lemmas about the state after setup. -/

/-- After `setup_matrices_with R K`, the global `X` holds the freshly drawn
R times K matrix read from the entropy stream at the pre-setup offset. -/
theorem setup_X (R K : ℕ) (ω : ℕ → ℚ) (s : PyState) :
    (setup_matrices_with R K ω s).X =
      some ⟨R, K, fun i j => ω (s.rng + i.val * K + j.val)⟩ := rfl

/-- After `setup_matrices_with R K`, the global `C` holds the K times K Gram
matrix of the drawn `X`. -/
theorem setup_C (R K : ℕ) (ω : ℕ → ℚ) (s : PyState) :
    (setup_matrices_with R K ω s).C =
      some ⟨K, K, fun i j =>
        ∑ k : Fin R, ω (s.rng + k.val * K + i.val) * ω (s.rng + k.val * K + j.val)⟩ := by
  show (Mat.transpose _ ).matmul _ = _
  rw [gram_some]
  rfl

/-- Setup advances the entropy offset by exactly the number of drawn values
and appends exactly one setup event; clock and call counter are untouched
(no timing happens during setup). -/
theorem setup_frame (R K : ℕ) (ω : ℕ → ℚ) (s : PyState) :
    (setup_matrices_with R K ω s).rng = s.rng + R * K ∧
    (setup_matrices_with R K ω s).clock = s.clock ∧
    (setup_matrices_with R K ω s).kernelCalls = s.kernelCalls ∧
    (setup_matrices_with R K ω s).events = s.events ++ [Ev.setupEv] :=
  ⟨rfl, rfl, rfl, rfl⟩

/-! Error propagation lemmas: a kernel failure surfaces as an `Except.error`
and nothing in the script catches it. -/

/-- With the global `X` still `None`, the matmul kernel body fails: attribute
access `X.T` on `None` raises. -/
theorem matmulKernel_noneX (τ : ℕ → ℚ) (s : PyState) (h : s.X = none) :
    matmulKernel τ s = .error () := by
  unfold matmulKernel
  rw [h]

/-- With the global `C` still `None`, the eigendecomposition kernel body
fails: `np.linalg.eigh(None)` raises. -/
theorem eighKernel_noneC (ev : Mat → ℕ → ℚ) (evec : Mat → ℕ → ℕ → ℚ)
    (τ : ℕ → ℚ) (s : PyState) (h : s.C = none) :
    eighKernel ev evec τ s = .error () := by
  unfold eighKernel
  rw [h]

/-- On a non-square `C`, `eigh` fails. -/
theorem eigh_nonsquare (ev : Mat → ℕ → ℚ) (evec : Mat → ℕ → ℕ → ℚ) (c : Mat)
    (h : c.rows ≠ c.cols) : eigh ev evec c = none := by
  unfold eigh
  rw [if_neg h]

/-- With `C` set to a non-square matrix, the eigendecomposition kernel body
fails. -/
theorem eighKernel_nonsquare (ev : Mat → ℕ → ℚ) (evec : Mat → ℕ → ℕ → ℚ)
    (τ : ℕ → ℚ) (c : Mat) (s : PyState) (h : s.C = some c)
    (hsq : c.rows ≠ c.cols) : eighKernel ev evec τ s = .error () := by
  unfold eighKernel
  rw [h]
  simp only [eigh_nonsquare ev evec c hsq]

/-- A loop whose first iteration fails propagates that failure: the script
has no handler, so a failing body aborts the whole loop with the error. -/
theorem iterateE_error (f : PyState → Except Unit PyState) (n : ℕ) (s : PyState)
    (h : f s = .error ()) : iterateE f (n + 1) s = .error () := by
  rw [iterateE, h]
  rfl

/-- Frame property of the loop combinator: when every successful step leaves
`X`, `C` and the generator offset unchanged, so does the whole loop. -/
theorem iterateE_frame (f : PyState → Except Unit PyState)
    (hf : ∀ t t1, f t = .ok t1 → t1.X = t.X ∧ t1.C = t.C ∧ t1.rng = t.rng) :
    ∀ (n : ℕ) (s s1 : PyState), iterateE f n s = .ok s1 →
      s1.X = s.X ∧ s1.C = s.C ∧ s1.rng = s.rng := by
  intro n
  induction n with
  | zero =>
    intro s s1 h
    rw [iterateE] at h
    injection h with h
    subst h
    exact ⟨rfl, rfl, rfl⟩
  | succ n ih =>
    intro s s1 h
    rw [iterateE] at h
    cases hfs : f s with
    | error e =>
      rw [hfs] at h
      simp [Except.bind] at h
    | ok s2 =>
      rw [hfs, Except.bind] at h
      obtain ⟨h1, h2, h3⟩ := ih s2 s1 h
      obtain ⟨g1, g2, g3⟩ := hf s s2 hfs
      exact ⟨h1.trans g1, h2.trans g2, h3.trans g3⟩

/-- A successful matmul kernel step leaves `X`, `C` and the generator offset
unchanged: the iteration result is discarded. -/
theorem matmulKernel_frame (τ : ℕ → ℚ) (t t1 : PyState)
    (h : matmulKernel τ t = .ok t1) : t1.X = t.X ∧ t1.C = t.C ∧ t1.rng = t.rng := by
  cases hx : t.X with
  | none =>
    rw [matmulKernel_noneX τ t hx] at h
    exact absurd h (by simp)
  | some x =>
    rw [matmulKernel_ok τ x t hx] at h
    injection h with h
    subst h
    exact ⟨hx, rfl, rfl⟩

/-- A successful eigendecomposition kernel step leaves `X`, `C` and the
generator offset unchanged: the iteration result is discarded. -/
theorem eighKernel_frame (ev : Mat → ℕ → ℚ) (evec : Mat → ℕ → ℕ → ℚ)
    (τ : ℕ → ℚ) (t t1 : PyState)
    (h : eighKernel ev evec τ t = .ok t1) : t1.X = t.X ∧ t1.C = t.C ∧ t1.rng = t.rng := by
  cases hc : t.C with
  | none =>
    rw [eighKernel_noneC ev evec τ t hc] at h
    exact absurd h (by simp)
  | some c =>
    by_cases hsq : c.rows = c.cols
    · rw [eighKernel_ok ev evec τ c t hc hsq] at h
      injection h with h
      subst h
      exact ⟨rfl, hc, rfl⟩
    · rw [eighKernel_nonsquare ev evec τ c t hc hsq] at h
      exact absurd h (by simp)

/-- Inversion for `benchmark_matmul`: a successful run factors through a
successful loop whose final state is the returned one. -/
theorem benchmark_matmul_inv (τ : ℕ → ℚ) (loops : ℕ) (s s1 : PyState) (v : Val)
    (h : benchmark_matmul τ loops s = .ok (v, s1)) :
    iterateE (matmulKernel τ) loops s = .ok s1 := by
  unfold benchmark_matmul at h
  cases hit : iterateE (matmulKernel τ) loops s with
  | error e =>
    rw [hit] at h
    exact absurd h (by simp [Except.map])
  | ok s2 =>
    rw [hit] at h
    simp only [Except.map] at h
    injection h with h
    rw [Prod.mk.injEq] at h
    rw [h.2]

/-- Inversion for `benchmark_eigendecomposition`: a successful run factors
through a successful loop whose final state is the returned one. -/
theorem benchmark_eigendecomposition_inv (ev : Mat → ℕ → ℚ)
    (evec : Mat → ℕ → ℕ → ℚ) (τ : ℕ → ℚ) (loops : ℕ) (s s1 : PyState) (v : Val)
    (h : benchmark_eigendecomposition ev evec τ loops s = .ok (v, s1)) :
    iterateE (eighKernel ev evec τ) loops s = .ok s1 := by
  unfold benchmark_eigendecomposition at h
  cases hit : iterateE (eighKernel ev evec τ) loops s with
  | error e =>
    rw [hit] at h
    exact absurd h (by simp [Except.map])
  | ok s2 =>
    rw [hit] at h
    simp only [Except.map] at h
    injection h with h
    rw [Prod.mk.injEq] at h
    rw [h.2]

/-- Running benchmark 1 and then benchmark 2 through the harness wrapper on
any state with both globals well-formed: everything succeeds and the final
state accumulates the two kernel-event batches in order. -/
theorem run_both (τm τe : ℕ → ℚ) (ev : Mat → ℕ → ℚ) (evec : Mat → ℕ → ℕ → ℚ)
    (loopsA loopsB : ℕ) (t : PyState) (x c : Mat)
    (hX : t.X = some x) (hC : t.C = some c) (hsq : c.rows = c.cols) :
    (bench_time_func (benchmark_matmul τm) loopsA t).bind
      (bench_time_func (benchmark_eigendecomposition ev evec τe) loopsB) =
    .ok { t with
      clock := t.clock + ∑ i ∈ Finset.range loopsA, τm (t.kernelCalls + i)
        + ∑ i ∈ Finset.range loopsB, τe (t.kernelCalls + loopsA + i)
      kernelCalls := t.kernelCalls + loopsA + loopsB
      events := t.events ++ List.replicate loopsA Ev.matmulEv
        ++ List.replicate loopsB Ev.eighEv } := by
  unfold bench_time_func
  rw [benchmark_matmul_ok τm loopsA x t hX]
  simp only [Except.map, Except.bind]
  have hC2 : ({ t with
      clock := t.clock + ∑ i ∈ Finset.range loopsA, τm (t.kernelCalls + i)
      kernelCalls := t.kernelCalls + loopsA
      events := t.events ++ List.replicate loopsA Ev.matmulEv } : PyState).C = some c := hC
  rw [benchmark_eigendecomposition_ok ev evec τe loopsB c _ hC2 hsq]

/-! Claim theorems. -/

/-- C1: for every repetition count, each timed runner (`benchmark_matmul`
and `benchmark_eigendecomposition`) performs exactly `loops` back-to-back
kernel invocations against the pre-built matrices, and returns the elapsed
wall-clock time around exactly that batch: the elapsed time equals the sum
of the `loops` per-call kernel costs and nothing else, the call counter
advances by exactly `loops`, and the events in the timed region are exactly
the `loops` kernel invocations (no setup work). -/
theorem claim_C1_timed_kernel_batches (τm τe : ℕ → ℚ) (ev : Mat → ℕ → ℚ)
    (evec : Mat → ℕ → ℕ → ℚ) (loops : ℕ) (s : PyState) (x c : Mat)
    (hx : s.X = some x) (hc : s.C = some c) (hsq : c.rows = c.cols) :
    ∃ s1 s2 : PyState,
      benchmark_matmul τm loops s = .ok (Val.num (perf_counter s1 - perf_counter s), s1) ∧
      s1.kernelCalls = s.kernelCalls + loops ∧
      perf_counter s1 - perf_counter s = ∑ i ∈ Finset.range loops, τm (s.kernelCalls + i) ∧
      s1.events = s.events ++ List.replicate loops Ev.matmulEv ∧
      benchmark_eigendecomposition ev evec τe loops s
        = .ok (Val.num (perf_counter s2 - perf_counter s), s2) ∧
      s2.kernelCalls = s.kernelCalls + loops ∧
      perf_counter s2 - perf_counter s = ∑ i ∈ Finset.range loops, τe (s.kernelCalls + i) ∧
      s2.events = s.events ++ List.replicate loops Ev.eighEv := by
  refine ⟨{ s with
      clock := s.clock + ∑ i ∈ Finset.range loops, τm (s.kernelCalls + i)
      kernelCalls := s.kernelCalls + loops
      events := s.events ++ List.replicate loops Ev.matmulEv },
    { s with
      clock := s.clock + ∑ i ∈ Finset.range loops, τe (s.kernelCalls + i)
      kernelCalls := s.kernelCalls + loops
      events := s.events ++ List.replicate loops Ev.eighEv },
    ?_, rfl, ?_, rfl, ?_, rfl, ?_, rfl⟩
  · rw [benchmark_matmul_ok τm loops x s hx]
    apply congrArg
    exact Prod.ext (congrArg Val.num (add_sub_cancel_left s.clock _).symm) rfl
  · exact add_sub_cancel_left s.clock _
  · rw [benchmark_eigendecomposition_ok ev evec τe loops c s hc hsq]
    apply congrArg
    exact Prod.ext (congrArg Val.num (add_sub_cancel_left s.clock _).symm) rfl
  · exact add_sub_cancel_left s.clock _

/-- Witness for C1 at a concrete state with both 1 times 1 globals set and
3 repetitions. -/
theorem claim_C1_witness :
    smallState.X = some oneMat ∧ smallState.C = some oneMat ∧
    oneMat.rows = oneMat.cols ∧
    ∃ s1 s2 : PyState,
      benchmark_matmul (fun _ => 1) 3 smallState
        = .ok (Val.num (perf_counter s1 - perf_counter smallState), s1) ∧
      s1.kernelCalls = smallState.kernelCalls + 3 ∧
      perf_counter s1 - perf_counter smallState
        = ∑ i ∈ Finset.range 3, (fun _ : ℕ => (1:ℚ)) (smallState.kernelCalls + i) ∧
      s1.events = smallState.events ++ List.replicate 3 Ev.matmulEv ∧
      benchmark_eigendecomposition (fun _ _ => 0) (fun _ _ _ => 0) (fun _ => 1) 3 smallState
        = .ok (Val.num (perf_counter s2 - perf_counter smallState), s2) ∧
      s2.kernelCalls = smallState.kernelCalls + 3 ∧
      perf_counter s2 - perf_counter smallState
        = ∑ i ∈ Finset.range 3, (fun _ : ℕ => (1:ℚ)) (smallState.kernelCalls + i) ∧
      s2.events = smallState.events ++ List.replicate 3 Ev.eighEv :=
  ⟨rfl, rfl, rfl,
    claim_C1_timed_kernel_batches (fun _ => 1) (fun _ => 1) (fun _ _ => 0) (fun _ _ _ => 0)
      3 smallState oneMat oneMat rfl rfl rfl⟩

/-- C2: after the initializer runs, the generated matrix `X` has exactly the
requested shape: 100000 times 1000 for the source's fixed dimensions, and
R times K for the parametric initializer body. -/
theorem claim_C2_generated_shape (ω : ℕ → ℚ) (s : PyState) :
    (∃ x : Mat, (setup_matrices ω s).X = some x ∧ x.rows = 100000 ∧ x.cols = 1000) ∧
    ∀ R K : ℕ, ∃ x : Mat,
      (setup_matrices_with R K ω s).X = some x ∧ x.rows = R ∧ x.cols = K :=
  ⟨⟨_, setup_X 100000 1000 ω s, rfl, rfl⟩,
   fun R K => ⟨_, setup_X R K ω s, rfl, rfl⟩⟩

/-- C3: the derived matrix equals the product of the transpose of `X` with
`X`; it is square with side length K, and symmetric, exactly (hence within
any floating-point tolerance): its (i, j) entry is the inner product of
columns i and j of `X`, and equals its (j, i) entry. -/
theorem claim_C3_gram_square_symmetric (ω : ℕ → ℚ) (s : PyState) (R K : ℕ) :
    (∃ x : Mat, (setup_matrices_with R K ω s).X = some x ∧
      x.transpose.matmul x = (setup_matrices_with R K ω s).C) ∧
    ∃ g : Fin K → Fin K → ℚ,
      (setup_matrices_with R K ω s).C = some ⟨K, K, g⟩ ∧
      (∀ i j : Fin K, g i j = ∑ k : Fin R,
        ω (s.rng + k.val * K + i.val) * ω (s.rng + k.val * K + j.val)) ∧
      ∀ i j : Fin K, g i j = g j i := by
  refine ⟨⟨_, setup_X R K ω s, rfl⟩, _, setup_C R K ω s, fun i j => rfl, fun i j => ?_⟩
  exact Finset.sum_congr rfl (fun k _ => mul_comm _ _)

/-- C4: execution is strictly linear: `main` always succeeds, and its event
trace is exactly one setup event followed by benchmark A's kernel calls and
then benchmark B's kernel calls; the setup event occurs exactly once and is
the first event, so no timed kernel runs before setup completes. -/
theorem claim_C4_linear_execution (ω : ℕ → ℚ) (ev : Mat → ℕ → ℚ)
    (evec : Mat → ℕ → ℕ → ℚ) (τm τe : ℕ → ℚ) (loopsA loopsB : ℕ) (s : PyState) :
    ∃ s3 : PyState,
      main ω ev evec τm τe loopsA loopsB s = .ok s3 ∧
      s3.events = s.events ++ ([Ev.setupEv] ++ List.replicate loopsA Ev.matmulEv
        ++ List.replicate loopsB Ev.eighEv) ∧
      ([Ev.setupEv] ++ List.replicate loopsA Ev.matmulEv
        ++ List.replicate loopsB Ev.eighEv).count Ev.setupEv = 1 ∧
      ([Ev.setupEv] ++ List.replicate loopsA Ev.matmulEv
        ++ List.replicate loopsB Ev.eighEv).head? = some Ev.setupEv := by
  refine ⟨_, run_both τm τe ev evec loopsA loopsB (setup_matrices ω s) _ _
    (setup_X 100000 1000 ω s) (setup_C 100000 1000 ω s) rfl, ?_, ?_, rfl⟩
  · show ((s.events ++ [Ev.setupEv]) ++ List.replicate loopsA Ev.matmulEv)
      ++ List.replicate loopsB Ev.eighEv = _
    simp [List.append_assoc]
  · simp [List.count_append, List.count_replicate]

/-- C5: neither timed runner mutates the matrices or the generator state:
after a successful run of `benchmark_matmul` or
`benchmark_eigendecomposition` with any repetition count, `X`, `C` and the
random generator offset are unchanged (each iteration's result is
discarded). -/
theorem claim_C5_runners_frame (τm τe : ℕ → ℚ) (ev : Mat → ℕ → ℚ)
    (evec : Mat → ℕ → ℕ → ℚ) (loopsA loopsB : ℕ) (s : PyState)
    (v1 v2 : Val) (s1 s2 : PyState)
    (h1 : benchmark_matmul τm loopsA s = .ok (v1, s1))
    (h2 : benchmark_eigendecomposition ev evec τe loopsB s = .ok (v2, s2)) :
    s1.X = s.X ∧ s1.C = s.C ∧ s1.rng = s.rng ∧
    s2.X = s.X ∧ s2.C = s.C ∧ s2.rng = s.rng := by
  obtain ⟨a1, a2, a3⟩ := iterateE_frame _ (matmulKernel_frame τm) loopsA s s1
    (benchmark_matmul_inv τm loopsA s s1 v1 h1)
  obtain ⟨b1, b2, b3⟩ := iterateE_frame _ (eighKernel_frame ev evec τe) loopsB s s2
    (benchmark_eigendecomposition_inv ev evec τe loopsB s s2 v2 h2)
  exact ⟨a1, a2, a3, b1, b2, b3⟩

/-- Witness for C5: one unit-cost run of each benchmark on the concrete
small state leaves `X`, `C` and the generator offset unchanged. -/
theorem claim_C5_witness :
    mmAfter.X = smallState.X ∧ mmAfter.C = smallState.C ∧ mmAfter.rng = smallState.rng ∧
    egAfter.X = smallState.X ∧ egAfter.C = smallState.C ∧ egAfter.rng = smallState.rng :=
  claim_C5_runners_frame (fun _ => 1) (fun _ => 1) (fun _ _ => 0) (fun _ _ _ => 0)
    1 1 smallState (Val.num (0 + 1 - 0)) (Val.num (0 + 1 - 0)) mmAfter egAfter rfl rfl

/-- C6 counterexample: in the scaled-down scenario (rows = 100, cols = 10),
`benchmark_eigendecomposition` with 3 repetitions and unit per-call cost
returns the bare duration 3 (which is positive), and its result is not a
tuple carrying an eigenvalue array alongside the duration: the claim that
the runner's result includes the eigenvalues is false. -/
theorem claim_C6_counterexample :
    (∃ s1 : PyState,
      benchmark_eigendecomposition (fun _ _ => 0) (fun _ _ _ => 0) (fun _ => 1) 3 scaledState
        = .ok (Val.num 3, s1) ∧ (0:ℚ) < 3) ∧
    ¬ ∃ (d : ℚ) (w : Vec) (s1 : PyState),
      benchmark_eigendecomposition (fun _ _ => 0) (fun _ _ _ => 0) (fun _ => 1) 3 scaledState
        = .ok (Val.tup (Val.num d) (Val.vec w), s1) := by
  have hrun := benchmark_eigendecomposition_ok (fun _ _ => 0) (fun _ _ _ => 0) (fun _ => 1) 3
    _ scaledState (setup_C 100 10 (fun _ => 0) initState) rfl
  have hsum : (∑ i ∈ Finset.range 3, (fun _ : ℕ => (1:ℚ)) (scaledState.kernelCalls + i)) = 3 := by
    simp
  rw [hsum] at hrun
  constructor
  · exact ⟨_, hrun, by norm_num⟩
  · rintro ⟨d, w, s1, hbad⟩
    rw [hrun] at hbad
    simp at hbad

/-- C6 (amended): in the scaled-down scenario (rows = 100, cols = 10),
Kernel B with 3 repetitions and positive per-call costs returns a duration
greater than 0, and each iteration computes (and then discards) an
eigendecomposition whose eigenvalue array has length 10: the runner returns
only the duration, not the eigenvalues. -/
theorem claim_C6_amended (ω : ℕ → ℚ) (ev : Mat → ℕ → ℚ) (evec : Mat → ℕ → ℕ → ℚ)
    (τ : ℕ → ℚ) (hτ : ∀ i, 0 < τ i) :
    ∃ (d : ℚ) (s1 : PyState),
      benchmark_eigendecomposition ev evec τ 3 (setup_matrices_with 100 10 ω initState)
        = .ok (Val.num d, s1) ∧ 0 < d ∧
      ∀ cM : Mat, (setup_matrices_with 100 10 ω initState).C = some cM →
        ∃ (w : Vec) (v : Mat), eigh ev evec cM = some (w, v) ∧ w.len = 10 := by
  refine ⟨_, _,
    benchmark_eigendecomposition_ok ev evec τ 3 _ _ (setup_C 100 10 ω initState) rfl,
    ?_, ?_⟩
  · apply Finset.sum_pos
    · intro i _
      exact hτ _
    · exact ⟨0, Finset.mem_range.mpr (by norm_num)⟩
  · intro cM hcM
    rw [setup_C 100 10 ω initState] at hcM
    injection hcM with hcM
    subst hcM
    exact ⟨_, _, eigh_some ev evec _ rfl, rfl⟩

/-- Witness for the amended C6 at unit per-call cost over the all-zero
entropy stream. -/
theorem claim_C6_amended_witness :
    (∀ i : ℕ, (0:ℚ) < (fun _ : ℕ => (1:ℚ)) i) ∧
    ∃ (d : ℚ) (s1 : PyState),
      benchmark_eigendecomposition (fun _ _ => 0) (fun _ _ _ => 0) (fun _ : ℕ => (1:ℚ)) 3
        (setup_matrices_with 100 10 (fun _ => 0) initState) = .ok (Val.num d, s1) ∧ 0 < d ∧
      ∀ cM : Mat, (setup_matrices_with 100 10 (fun _ => 0) initState).C = some cM →
        ∃ (w : Vec) (v : Mat),
          eigh (fun _ _ => 0) (fun _ _ _ => 0) cM = some (w, v) ∧ w.len = 10 :=
  ⟨fun i => by norm_num,
   claim_C6_amended (fun _ => 0) (fun _ _ => 0) (fun _ _ _ => 0) (fun _ => 1)
     (fun i => by norm_num)⟩

/-- C7: the script defines no error handling: a failure in a kernel
(attribute access on a `None` global, or `eigh` on a non-square matrix)
propagates uncaught out of the timed runners as an error result, with no
catch, validation or retry. -/
theorem claim_C7_no_error_handling (τm τe : ℕ → ℚ) (ev : Mat → ℕ → ℚ)
    (evec : Mat → ℕ → ℕ → ℚ) (loops : ℕ) (s : PyState) (hpos : 0 < loops) :
    (s.X = none → benchmark_matmul τm loops s = .error ()) ∧
    (s.C = none → benchmark_eigendecomposition ev evec τe loops s = .error ()) ∧
    ∀ c : Mat, s.C = some c → c.rows ≠ c.cols →
      benchmark_eigendecomposition ev evec τe loops s = .error () := by
  obtain ⟨n, rfl⟩ : ∃ n, loops = n + 1 := ⟨loops - 1, by omega⟩
  refine ⟨fun hX => ?_, fun hC => ?_, fun c hC hne => ?_⟩
  · unfold benchmark_matmul
    rw [iterateE_error _ n s (matmulKernel_noneX τm s hX)]
    rfl
  · unfold benchmark_eigendecomposition
    rw [iterateE_error _ n s (eighKernel_noneC ev evec τe s hC)]
    rfl
  · unfold benchmark_eigendecomposition
    rw [iterateE_error _ n s (eighKernel_nonsquare ev evec τe c s hC hne)]
    rfl

/-- Witness for C7 at one repetition from the module-load state. -/
theorem claim_C7_witness :
    0 < 1 ∧
    ((initState.X = none → benchmark_matmul (fun _ => 1) 1 initState = .error ()) ∧
     (initState.C = none →
       benchmark_eigendecomposition (fun _ _ => 0) (fun _ _ _ => 0) (fun _ => 1) 1 initState
         = .error ()) ∧
     ∀ c : Mat, initState.C = some c → c.rows ≠ c.cols →
       benchmark_eigendecomposition (fun _ _ => 0) (fun _ _ _ => 0) (fun _ => 1) 1 initState
         = .error ()) :=
  ⟨by decide,
   claim_C7_no_error_handling (fun _ => 1) (fun _ => 1) (fun _ _ => 0) (fun _ _ _ => 0)
     1 initState (by decide)⟩

/-- C8: for the same pre-built data and nonnegative per-call costs, the
duration returned by `benchmark_matmul` is monotonically non-decreasing in
the repetition count: each iteration contributes a non-negative amount of
time, so the duration for m repetitions is at most that for n when
m is at most n (in particular for 1 and 5). -/
theorem claim_C8_duration_monotone (τ : ℕ → ℚ) (s : PyState) (x : Mat) (m n : ℕ)
    (hx : s.X = some x) (hτ : ∀ i, 0 ≤ τ i) (hmn : m ≤ n) :
    ∃ (dm dn : ℚ) (sm sn : PyState),
      benchmark_matmul τ m s = .ok (Val.num dm, sm) ∧
      benchmark_matmul τ n s = .ok (Val.num dn, sn) ∧ dm ≤ dn := by
  refine ⟨∑ i ∈ Finset.range m, τ (s.kernelCalls + i),
    ∑ i ∈ Finset.range n, τ (s.kernelCalls + i), _, _,
    benchmark_matmul_ok τ m x s hx, benchmark_matmul_ok τ n x s hx, ?_⟩
  apply Finset.sum_le_sum_of_subset_of_nonneg (Finset.range_subset.mpr hmn)
  intro i _ _
  exact hτ _

/-- Witness for C8 at repetition counts 1 and 5 on the concrete small
state with unit per-call cost. -/
theorem claim_C8_witness :
    smallState.X = some oneMat ∧ (∀ i : ℕ, (0:ℚ) ≤ (fun _ : ℕ => (1:ℚ)) i) ∧ 1 ≤ 5 ∧
    ∃ (dm dn : ℚ) (sm sn : PyState),
      benchmark_matmul (fun _ => 1) 1 smallState = .ok (Val.num dm, sm) ∧
      benchmark_matmul (fun _ => 1) 5 smallState = .ok (Val.num dn, sn) ∧ dm ≤ dn :=
  ⟨rfl, fun i => by norm_num, by norm_num,
   claim_C8_duration_monotone (fun _ => 1) smallState oneMat 1 5 rfl
     (fun i => by norm_num) (by norm_num)⟩

/-- C9: calling the initializer twice with the same dimensions produces two
matrices of identical shape, but the second is drawn from fresh entropy
(the window right after the first call's window, not a cached copy), so
whenever the two windows differ at some position the two matrices differ. -/
theorem claim_C9_fresh_randomness (R K : ℕ) (ω : ℕ → ℚ) (s : PyState) :
    (setup_matrices_with R K ω s).X = some (xMat R K ω s.rng) ∧
    (setup_matrices_with R K ω (setup_matrices_with R K ω s)).X
      = some (xMat R K ω (s.rng + R * K)) ∧
    (xMat R K ω s.rng).rows = (xMat R K ω (s.rng + R * K)).rows ∧
    (xMat R K ω s.rng).cols = (xMat R K ω (s.rng + R * K)).cols ∧
    ∀ (i : Fin R) (j : Fin K),
      ω (s.rng + i.val * K + j.val) ≠ ω (s.rng + R * K + i.val * K + j.val) →
      xMat R K ω s.rng ≠ xMat R K ω (s.rng + R * K) := by
  refine ⟨rfl, rfl, rfl, rfl, fun i j hdiff heq => hdiff ?_⟩
  have h1 : (xMat R K ω s.rng).entryAt i.val j.val = ω (s.rng + i.val * K + j.val) := by
    unfold Mat.entryAt xMat
    rw [dif_pos ⟨i.isLt, j.isLt⟩]
  have h2 : (xMat R K ω (s.rng + R * K)).entryAt i.val j.val
      = ω (s.rng + R * K + i.val * K + j.val) := by
    unfold Mat.entryAt xMat
    rw [dif_pos ⟨i.isLt, j.isLt⟩]
  rw [← h1, ← h2, heq]

/-- Witness for C9 with 1 times 1 matrices over the identity-like entropy
stream, where the fresh window differs from the first: the two drawn
matrices are different. -/
theorem claim_C9_witness :
    xMat 1 1 (fun n : ℕ => (n:ℚ)) initState.rng
      ≠ xMat 1 1 (fun n : ℕ => (n:ℚ)) (initState.rng + 1 * 1) :=
  (claim_C9_fresh_randomness 1 1 (fun n : ℕ => (n:ℚ)) initState).2.2.2.2 0 0 (by decide)

/-- C10: the timed runners are only safe once `setup_matrices` has run:
from the module-load state (globals still `None`), either runner with a
positive repetition count fails, while from any post-setup state both
runners complete without error. -/
theorem claim_C10_setup_precondition (τm τe : ℕ → ℚ) (ev : Mat → ℕ → ℚ)
    (evec : Mat → ℕ → ℕ → ℚ) (loops R K : ℕ) (ω : ℕ → ℚ) (s : PyState)
    (hpos : 0 < loops) :
    initState.X = none ∧ initState.C = none ∧
    benchmark_matmul τm loops initState = .error () ∧
    benchmark_eigendecomposition ev evec τe loops initState = .error () ∧
    (∃ (d : ℚ) (s1 : PyState),
      benchmark_matmul τm loops (setup_matrices_with R K ω s) = .ok (Val.num d, s1)) ∧
    ∃ (d : ℚ) (s2 : PyState),
      benchmark_eigendecomposition ev evec τe loops (setup_matrices_with R K ω s)
        = .ok (Val.num d, s2) := by
  obtain ⟨n, rfl⟩ : ∃ n, loops = n + 1 := ⟨loops - 1, by omega⟩
  refine ⟨rfl, rfl, ?_, ?_, ?_, ?_⟩
  · unfold benchmark_matmul
    rw [iterateE_error _ n initState (matmulKernel_noneX τm initState rfl)]
    rfl
  · unfold benchmark_eigendecomposition
    rw [iterateE_error _ n initState (eighKernel_noneC ev evec τe initState rfl)]
    rfl
  · exact ⟨_, _, benchmark_matmul_ok τm (n + 1) _ _ (setup_X R K ω s)⟩
  · exact ⟨_, _,
      benchmark_eigendecomposition_ok ev evec τe (n + 1) _ _ (setup_C R K ω s) rfl⟩

/-- Witness for C10 at one repetition with 1 times 1 setup dimensions. -/
theorem claim_C10_witness :
    0 < 1 ∧
    (initState.X = none ∧ initState.C = none ∧
     benchmark_matmul (fun _ => 1) 1 initState = .error () ∧
     benchmark_eigendecomposition (fun _ _ => 0) (fun _ _ _ => 0) (fun _ => 1) 1 initState
       = .error () ∧
     (∃ (d : ℚ) (s1 : PyState),
       benchmark_matmul (fun _ => 1) 1 (setup_matrices_with 1 1 (fun _ => 0) initState)
         = .ok (Val.num d, s1)) ∧
     ∃ (d : ℚ) (s2 : PyState),
       benchmark_eigendecomposition (fun _ _ => 0) (fun _ _ _ => 0) (fun _ => 1) 1
         (setup_matrices_with 1 1 (fun _ => 0) initState) = .ok (Val.num d, s2)) :=
  ⟨by decide,
   claim_C10_setup_precondition (fun _ => 1) (fun _ => 1) (fun _ _ => 0) (fun _ _ _ => 0)
     1 1 1 (fun _ => 0) initState (by decide)⟩

end MatMulMillions
